import Mathlib

/-!
Verification development for the kzam synchronization and acquisition engine.

The Python source is shallowly embedded: dataclasses become structures,
sqlite rows become a record type, the sqlite primary-key uniqueness rule is
made explicit, and the network-facing download loop is embedded as a pure
function over an abstract description of what each mirror does (whether the
probe connects, whether a content length is reported, whether the stream
completes, and so on).  Timestamps (Python datetime values) are embedded as
integers, since only their total order is used by the code under study.
-/

namespace Kzam

open scoped List

/-! ## Data model (datamodel.py) -/

/-- Embedding of datamodel.ArchiveReference: name, frozenset of language
codes, optional flavour.  Python frozenset becomes Finset String; the
optional flavour (which the config loader leaves as None when absent)
becomes Option String. -/
structure ArchiveReference where
  name : String
  language : Finset String
  flavour : Option String
  deriving DecidableEq

/-- Embedding of datamodel.ArchiveEntry: one catalog feed entry. -/
structure ArchiveEntry where
  id : String
  title : String
  updated : Int
  summary : String
  language : Finset String
  name : String
  flavor : Option String
  category : Option String
  tags : Finset String
  article_count : Int
  media_count : Int
  author_name : String
  publisher_name : String
  meta_link : String
  deriving DecidableEq

/-- Embedding of ArchiveEntry.to_reference: project (name, language, flavor). -/
def ArchiveEntry.to_reference (e : ArchiveEntry) : ArchiveReference :=
  { name := e.name, language := e.language, flavour := e.flavor }

/-- Embedding of datamodel.ArchiveDetails: one installed archive version. -/
structure ArchiveDetails where
  reference : ArchiveReference
  updated : Int
  file_name : String
  deriving DecidableEq

/-- Embedding of datamodel.Mirror. -/
structure Mirror where
  location : String
  priority : Int
  url : String
  deriving DecidableEq

/-- Embedding of datamodel.ArchiveMeta: per-file manifest. -/
structure ArchiveMeta where
  file_name : String
  size : Int
  hashes : List (String × String)
  mirrors : List Mirror
  deriving DecidableEq

/-! ## Installed-state store (db.py)

The archives table is embedded as a list of rows.  The CREATE_TABLE
statement declares PRIMARY KEY (name, language, flavour); sqlite enforces
uniqueness over those three columns, with the sqlite rule that a NULL in a
primary-key column never collides with anything.  The flavour column is
nullable; name and language are NOT NULL. -/

/-- Embedding of one row of the archives table.  The language column stores
the comma-joined sorted language codes, exactly as every db.py query binds
it via join of sorted language. -/
structure DbRow where
  name : String
  language : String
  flavour : Option String
  updated : Int
  file_name : String
  deriving DecidableEq

/-- The language string bound by db.py for a reference: comma-join of the
sorted language codes. -/
def langString (l : Finset String) : String :=
  String.intercalate "," (l.sort (· ≤ ·))

/-- The row that DbManager.insert_archive binds for an ArchiveDetails. -/
def toRow (a : ArchiveDetails) : DbRow :=
  { name := a.reference.name
    language := langString a.reference.language
    flavour := a.reference.flavour
    updated := a.updated
    file_name := a.file_name }

/-- Sqlite primary-key collision for PRIMARY KEY (name, language, flavour):
two rows collide when the NOT NULL columns name and language are equal and
the nullable flavour column is non-NULL and equal in both rows (a NULL
primary-key value never collides in sqlite). -/
def pkConflict (r s : DbRow) : Bool :=
  decide (r.name = s.name) && decide (r.language = s.language) &&
    (match r.flavour, s.flavour with
     | some a, some b => decide (a = b)
     | _, _ => false)

/-- Embedding of DbManager.insert_archive: the INSERT succeeds and appends
the bound row unless it collides with an existing row on the declared
primary key, in which case sqlite raises IntegrityError. -/
def insert_archive (tbl : List DbRow) (a : ArchiveDetails) : Except String (List DbRow) :=
  if tbl.any (fun r => pkConflict r (toRow a)) then
    .error "IntegrityError: UNIQUE constraint failed: archives.name, archives.language, archives.flavour"
  else
    .ok (tbl ++ [toRow a])

/-- Embedding of DbManager.archive_exists: the EXISTS query over the full
(name, language, flavour, updated) tuple. -/
def archive_exists (tbl : List DbRow) (ref : ArchiveReference) (updated : Int) : Bool :=
  tbl.any fun r =>
    decide (r.name = ref.name) && decide (r.language = langString ref.language) &&
      decide (r.flavour = ref.flavour) && decide (r.updated = updated)

/-- A concrete reference with a non-null flavour, as in the spec round-trip
example. -/
def wikiMaxiRef : ArchiveReference :=
  { name := "wikipedia", language := {"eng"}, flavour := some "maxi" }

/-- Two installed versions of the same reference, one month apart. -/
def wikiMaxiJan : ArchiveDetails := { reference := wikiMaxiRef, updated := 100, file_name := "wikipedia_2024-01-01.zim" }

/-- The newer of the two versions. -/
def wikiMaxiFeb : ArchiveDetails := { reference := wikiMaxiRef, updated := 200, file_name := "wikipedia_2024-02-01.zim" }

/-- C1: the claim says that for two rows sharing (name, language-set,
flavor) with different updated timestamps, inserting the second row after
the first succeeds with no constraint violation.  The table declares
PRIMARY KEY (name, language, flavour), so for a non-null flavour the second
insert violates the primary key and sqlite rejects it: the embedded insert
returns an IntegrityError even though the full 4-tuple including updated is
fresh (archive_exists is false).  This contradicts the exists-before-insert
design used everywhere else in db.py and the update flow, which insert new
versions of still-subscribed references without deleting the old row. -/
theorem c1_insert_second_version_fails :
    insert_archive [] wikiMaxiJan = .ok [toRow wikiMaxiJan] ∧
    archive_exists [toRow wikiMaxiJan] wikiMaxiRef 200 = false ∧
    insert_archive [toRow wikiMaxiJan] wikiMaxiFeb =
      .error "IntegrityError: UNIQUE constraint failed: archives.name, archives.language, archives.flavour" := by
  have hl : langString {"eng"} = "eng" := by
    simp only [langString, Finset.sort_singleton]
    decide
  refine ⟨?_, ?_, ?_⟩ <;>
    simp [insert_archive, archive_exists, pkConflict, toRow, wikiMaxiJan, wikiMaxiFeb,
      wikiMaxiRef, hl]

/-! ## Mirror ordering (download.py, download_archive)

The source iterates over sorted(meta.mirrors, key=lambda m: m.priority).
Python sorted is a stable ascending sort on the key, which for a total
preorder is the unique stable sort; it is embedded as insertion sort with
the priority order. -/

/-- The comparison used by the sorted call: priority of the first mirror is
at most priority of the second. -/
def mirrorLE (a b : Mirror) : Prop := a.priority ≤ b.priority

instance : DecidableRel mirrorLE := fun a b => inferInstanceAs (Decidable (a.priority ≤ b.priority))

instance : IsTotal Mirror mirrorLE := ⟨fun a b => Int.le_total a.priority b.priority⟩

instance : IsTrans Mirror mirrorLE := ⟨fun _ _ _ h h2 => le_trans h h2⟩

/-- Embedding of sorted(meta.mirrors, key=lambda m: m.priority): the order
in which download_archive attempts the mirrors. -/
def attemptOrder (mirrors : List Mirror) : List Mirror :=
  mirrors.insertionSort mirrorLE

/-- Helper for the stability statement: mirrors of one given priority. -/
def samePriority (p : Int) (m : Mirror) : Bool := decide (m.priority = p)

/-- Stability of the attempt order: for each priority value, the mirrors of
that priority appear in the sorted output exactly in their original
relative order. -/
theorem attemptOrder_stable (l : List Mirror) (p : Int) :
    (attemptOrder l).filter (samePriority p) = l.filter (samePriority p) := by
  have hpw : (l.filter (samePriority p)).Pairwise mirrorLE := by
    refine List.pairwise_of_forall_mem_list ?_
    intro a ha b hb
    have ha2 := (List.mem_filter.mp ha).2
    have hb2 := (List.mem_filter.mp hb).2
    simp only [samePriority, decide_eq_true_eq] at ha2 hb2
    simp [mirrorLE, ha2, hb2]
  have hsub : l.filter (samePriority p) <+ attemptOrder l :=
    List.sublist_insertionSort hpw (List.filter_sublist l)
  have hsub2 : l.filter (samePriority p) <+ (attemptOrder l).filter (samePriority p) := by
    have := hsub.filter (samePriority p)
    rwa [List.filter_filter, show ((fun a => samePriority p a && samePriority p a) = samePriority p) from by
      funext a; cases samePriority p a <;> rfl] at this
  have hperm : (attemptOrder l).filter (samePriority p) ~ l.filter (samePriority p) :=
    (List.perm_insertionSort mirrorLE l).filter (samePriority p)
  exact (hsub2.eq_of_length hperm.length_eq.symm).symm

/-- C5: mirrors are attempted in ascending priority order: the attempt
order is sorted by priority, is a permutation of the mirror list, ties keep
their original relative order (stability), and the concrete list with
priorities [30, 10, 20] is attempted as [10, 20, 30]. -/
theorem c5_attempt_order_sorted_stable :
    (∀ l : List Mirror, (attemptOrder l).Sorted mirrorLE) ∧
    (∀ l : List Mirror, attemptOrder l ~ l) ∧
    (∀ (l : List Mirror) (p : Int),
      (attemptOrder l).filter (samePriority p) = l.filter (samePriority p)) ∧
    attemptOrder
        [{ location := "a", priority := 30, url := "u30" },
         { location := "b", priority := 10, url := "u10" },
         { location := "c", priority := 20, url := "u20" }] =
        [{ location := "b", priority := 10, url := "u10" },
         { location := "c", priority := 20, url := "u20" },
         { location := "a", priority := 30, url := "u30" }] := by
  refine ⟨fun l => List.sorted_insertionSort mirrorLE l,
          fun l => List.perm_insertionSort mirrorLE l,
          attemptOrder_stable, ?_⟩
  decide

/-! ## Mirror download loop (download.py, try_mirror and download_archive)

The network and the file system are abstracted: a MirrorBehavior record
says, for one mirror, whether the HEAD probe connects, whether its status
is a success (raise_for_status), what Content-Length it reports, whether
the GET connects, whether its status is ok, whether the streamed body
completes, and whether the file served hashes to the expected digest.
FsState tracks whether the .part file and the final file exist.

Exceptions are embedded as an error type that distinguishes what the
except clause in download_archive can catch: MirrorDownloadFailed is a
subclass of DownloadError, while requests-level exceptions (connection
errors, HTTPError from raise_for_status) are unrelated to DownloadError,
and the disk-space failure is raised as the DownloadError base class. -/

/-- What one mirror does when contacted. -/
structure MirrorBehavior where
  headConnects : Bool
  headOk : Bool
  contentLength : Option Nat
  getConnects : Bool
  getOk : Bool
  streamCompletes : Bool
  contentHashOk : Bool
  deriving DecidableEq

/-- Which Python exception a download step raises. -/
inductive PyError where
  /-- A requests-level exception: connection error, or HTTPError out of
  raise_for_status.  Not a DownloadError, so not caught by the except
  MirrorDownloadFailed clause. -/
  | requestsError : PyError
  /-- MirrorDownloadFailed with its message: the only class the loop in
  download_archive catches. -/
  | mirrorDownloadFailed (msg : String) : PyError
  /-- The DownloadError base class with its message (disk space, all
  mirrors exhausted). -/
  | downloadError (msg : String) : PyError
  /-- VerificationFailed raised by verify after a completed transfer. -/
  | verificationFailed : PyError
  deriving DecidableEq

/-- True exactly for the errors the except MirrorDownloadFailed clause
catches. -/
def caughtByLoop : PyError → Bool
  | .mirrorDownloadFailed _ => true
  | _ => false

/-- Existence of the temporary and final files in the archive directory. -/
structure FsState where
  partExists : Bool
  finalExists : Bool
  deriving DecidableEq

/-- Embedding of Downloader.try_mirror.  Step order follows the source:
optional HEAD probe with raise_for_status, Content-Length check, disk
space check against free space, then the GET, the ok check, opening the
.part file, streaming, and the rename of the .part file onto the final
path after a complete stream.  The returned state records which files
exist afterwards. -/
def try_mirror (freeSpace : Nat) (b : MirrorBehavior) (check_length : Bool)
    (fs : FsState) : Except PyError Unit × FsState :=
  if check_length ∧ ¬b.headConnects then
    (.error .requestsError, fs)
  else if check_length ∧ ¬b.headOk then
    (.error .requestsError, fs)
  else if check_length ∧ b.contentLength = none then
    (.error (.mirrorDownloadFailed "Could not get content length. Aborting download."), fs)
  else if check_length ∧ (∃ size, b.contentLength = some size ∧ freeSpace < size) then
    (.error (.downloadError "File would not fit on disk. Aborting download."), fs)
  else if ¬b.getConnects then
    (.error .requestsError, fs)
  else if ¬b.getOk then
    (.error (.mirrorDownloadFailed "Could not download content. Aborting."), fs)
  else if b.streamCompletes then
    (.ok (), { partExists := false, finalExists := true })
  else
    (.error .requestsError, { fs with partExists := true })

/-- Embedding of the mirror loop in Downloader.download_archive, running on
the behaviors of the mirrors in attempt order: try each mirror, on success
optionally verify the file, catch only MirrorDownloadFailed and move on to
the next mirror, and raise the generic DownloadError once every mirror has
been tried. -/
def download_loop (freeSpace : Nat) (check_length verifyFlag : Bool) :
    List MirrorBehavior → FsState → Except PyError Unit × FsState
  | [], fs => (.error (.downloadError "Could not download content from any mirror."), fs)
  | b :: rest, fs =>
    match try_mirror freeSpace b check_length fs with
    | (.ok _, fs1) =>
      if verifyFlag ∧ ¬b.contentHashOk then (.error .verificationFailed, fs1)
      else (.ok (), fs1)
    | (.error e, fs1) =>
      if caughtByLoop e then download_loop freeSpace check_length verifyFlag rest fs1
      else (.error e, fs1)

/-- Embedding of Downloader.download_archive for one archive: sort the
mirrors of the manifest by priority and run the loop over their
behaviors. -/
def download_archive (freeSpace : Nat) (meta : ArchiveMeta)
    (behaviorOf : Mirror → MirrorBehavior) (check_length verifyFlag : Bool)
    (fs : FsState) : Except PyError Unit × FsState :=
  download_loop freeSpace check_length verifyFlag
    ((attemptOrder meta.mirrors).map behaviorOf) fs

/-- A mirror whose HEAD probe does not connect at all. -/
def mirrorHeadDead : MirrorBehavior :=
  { headConnects := false, headOk := false, contentLength := none,
    getConnects := false, getOk := false, streamCompletes := false, contentHashOk := true }

/-- A mirror for which every step succeeds, serving a five byte file. -/
def mirrorGood : MirrorBehavior :=
  { headConnects := true, headOk := true, contentLength := some 5,
    getConnects := true, getOk := true, streamCompletes := true, contentHashOk := true }

/-- A mirror that connects and starts streaming but fails mid-stream. -/
def mirrorMidStreamFail : MirrorBehavior :=
  { headConnects := true, headOk := true, contentLength := some 5,
    getConnects := true, getOk := true, streamCompletes := false, contentHashOk := true }

/-- The file system before a download: no .part file, no final file. -/
def fs0 : FsState := { partExists := false, finalExists := false }

/-- C2 counterexample: with two mirrors where the first suffers a
network-level failure on its size probe (step 1) and the second works
perfectly, the loop aborts the whole operation with the uncaught requests
exception instead of moving on to the second mirror, although running the
second mirror alone succeeds.  This refutes the claim that any
network-level failure in steps 1 to 3 merely advances to the next
mirror. -/
theorem c2_network_failure_aborts_operation :
    download_loop 100 true false [mirrorHeadDead, mirrorGood] fs0 =
      (.error .requestsError, fs0) ∧
    download_loop 100 true false [mirrorGood] fs0 = (.ok (), { partExists := false, finalExists := true }) :=
  ⟨rfl, rfl⟩

/-- Mirror-local failures do not change the file system: when try_mirror
raises MirrorDownloadFailed, no file has been created. -/
theorem try_mirror_caught_state (freeSpace : Nat) (b : MirrorBehavior)
    (check_length : Bool) (fs : FsState) (e : PyError)
    (h : (try_mirror freeSpace b check_length fs).1 = .error e)
    (hc : caughtByLoop e = true) :
    (try_mirror freeSpace b check_length fs).2 = fs := by
  cases e with
  | mirrorDownloadFailed msg =>
    unfold try_mirror at h ⊢
    split_ifs at h ⊢ <;> simp_all
  | requestsError => simp [caughtByLoop] at hc
  | downloadError m => simp [caughtByLoop] at hc
  | verificationFailed => simp [caughtByLoop] at hc

/-- C2 amended: only failures raised as MirrorDownloadFailed (a probe
without Content-Length, or a content request with a non-success status)
make the loop advance to the next mirror, and such failures leave the file
system untouched; when every mirror fails that way the loop ends with the
generic DownloadError for an exhausted mirror list, with the file system
unchanged.  Any other error from a mirror (connection failure, HTTPError
from the probe, mid-stream failure, disk-space failure) aborts the whole
operation at that mirror, and the remaining mirrors are never tried. -/
theorem c2_amended_loop_behaviour (freeSpace : Nat) (check_length verifyFlag : Bool) :
    (∀ (bs : List MirrorBehavior) (fs : FsState),
      (∀ b ∈ bs, ∃ msg,
        (try_mirror freeSpace b check_length fs).1 = .error (.mirrorDownloadFailed msg)) →
      download_loop freeSpace check_length verifyFlag bs fs =
        (.error (.downloadError "Could not download content from any mirror."), fs)) ∧
    (∀ (b : MirrorBehavior) (rest : List MirrorBehavior) (fs : FsState) (e : PyError),
      (try_mirror freeSpace b check_length fs).1 = .error e →
      caughtByLoop e = false →
      download_loop freeSpace check_length verifyFlag (b :: rest) fs =
        (.error e, (try_mirror freeSpace b check_length fs).2)) := by
  constructor
  · intro bs
    induction bs with
    | nil => intro fs _; rfl
    | cons b rest ih =>
      intro fs h
      obtain ⟨msg, hb⟩ := h b (List.mem_cons_self b rest)
      have hstate := try_mirror_caught_state freeSpace b check_length fs
        (.mirrorDownloadFailed msg) hb rfl
      have hrest := fun b2 hb2 => h b2 (List.mem_cons_of_mem b hb2)
      simp only [download_loop]
      cases hr : try_mirror freeSpace b check_length fs with
      | mk r fs1 =>
        rw [hr] at hb hstate
        simp only at hb hstate
        subst hb
        subst hstate
        simp only [caughtByLoop, if_true]
        exact ih _ hrest
  · intro b rest fs e he hc
    simp only [download_loop]
    cases hr : try_mirror freeSpace b check_length fs with
    | mk r fs1 =>
      rw [hr] at he
      simp only at he
      subst he
      simp [hc]

/-- A mirror whose probe succeeds but reports no Content-Length header:
the one probe failure the source raises as MirrorDownloadFailed. -/
def mirrorNoCL : MirrorBehavior :=
  { headConnects := true, headOk := true, contentLength := none,
    getConnects := false, getOk := false, streamCompletes := false, contentHashOk := true }

/-- Witness for the amended C2 theorem at concrete inputs: two mirrors
that both lack a Content-Length exhaust the list and end with the generic
DownloadError, and a first mirror failing mid-stream aborts at once with
the uncaught requests exception, leaving its partial file behind. -/
theorem c2_amended_loop_behaviour_witness :
    download_loop 100 true false [mirrorNoCL, mirrorNoCL] fs0 =
      (.error (.downloadError "Could not download content from any mirror."), fs0) ∧
    download_loop 100 true false [mirrorMidStreamFail, mirrorGood] fs0 =
      (.error .requestsError, { partExists := true, finalExists := false }) := by
  constructor
  · exact (c2_amended_loop_behaviour 100 true false).1 [mirrorNoCL, mirrorNoCL] fs0
      (by intro b hb; fin_cases hb <;> exact ⟨_, rfl⟩)
  · exact (c2_amended_loop_behaviour 100 true false).2 mirrorMidStreamFail [mirrorGood] fs0
      .requestsError rfl rfl

/-- C6: with the size check enabled, a probe that reports a content length
exceeding the free space makes the whole download fail at once with the
DownloadError raised for insufficient disk space.  The except clause in
download_archive does not catch it (it is the DownloadError base class, not
MirrorDownloadFailed), so no further mirror is attempted, and the file
system is returned exactly as it was: no .part file has been created and
no byte has been streamed. -/
theorem c6_insufficient_disk_space_fatal (freeSpace size : Nat) (b : MirrorBehavior)
    (rest : List MirrorBehavior) (verifyFlag : Bool) (fs : FsState)
    (h1 : b.headConnects = true) (h2 : b.headOk = true)
    (h3 : b.contentLength = some size) (h4 : freeSpace < size) :
    download_loop freeSpace true verifyFlag (b :: rest) fs =
      (.error (.downloadError "File would not fit on disk. Aborting download."), fs) := by
  have ht : try_mirror freeSpace b true fs =
      (.error (.downloadError "File would not fit on disk. Aborting download."), fs) := by
    unfold try_mirror
    simp [h1, h2, h3, h4]
  simp only [download_loop, ht]
  simp [caughtByLoop]

/-- Witness for C6: a three byte free space cannot hold the five byte file
announced by the good mirror, so the loop fails fatally with the disk
space error and the file system is untouched. -/
theorem c6_insufficient_disk_space_fatal_witness :
    download_loop 3 true false [mirrorGood] fs0 =
      (.error (.downloadError "File would not fit on disk. Aborting download."), fs0) :=
  c6_insufficient_disk_space_fatal 3 5 mirrorGood [] false fs0 rfl rfl rfl (by decide)

/-- A mirror that never completes a stream never sets the final file. -/
theorem try_mirror_final_unchanged (freeSpace : Nat) (b : MirrorBehavior)
    (check_length : Bool) (fs : FsState) (h : b.streamCompletes = false) :
    (try_mirror freeSpace b check_length fs).2.finalExists = fs.finalExists := by
  unfold try_mirror
  split_ifs <;> simp_all

/-- A successful try_mirror means the stream completed. -/
theorem try_mirror_ok_stream (freeSpace : Nat) (b : MirrorBehavior)
    (check_length : Bool) (fs : FsState) (u : Unit)
    (h : (try_mirror freeSpace b check_length fs).1 = .ok u) :
    b.streamCompletes = true := by
  unfold try_mirror at h
  split_ifs at h
  simp_all

/-- C7 counterexample: a single mirror failing mid-stream leaves the
temporary .part file on disk; the source has no cleanup code, so the claim
that the .part path is absent after cleanup fails at this input. -/
theorem c7_part_file_left_after_midstream_failure :
    download_loop 100 false false [mirrorMidStreamFail] fs0 =
      (.error .requestsError, { partExists := true, finalExists := false }) := by
  rfl

/-- C7 amended: the final path is populated only through the rename that
follows a complete stream: if no attempted mirror completes its stream,
the final path stays absent; but after a mid-stream failure the .part file
remains on disk (there is no cleanup), with the final path still absent. -/
theorem c7_amended_final_path_atomic (freeSpace : Nat) (check_length verifyFlag : Bool) :
    (∀ (bs : List MirrorBehavior) (fs : FsState),
      (∀ b ∈ bs, b.streamCompletes = false) → fs.finalExists = false →
      ((download_loop freeSpace check_length verifyFlag bs fs).2).finalExists = false) ∧
    (∀ (b : MirrorBehavior) (fs : FsState),
      b.getConnects = true → b.getOk = true → b.streamCompletes = false →
      try_mirror freeSpace b false fs =
        (.error .requestsError, { partExists := true, finalExists := fs.finalExists })) := by
  constructor
  · intro bs
    induction bs with
    | nil => intro fs _ hf; exact hf
    | cons b rest ih =>
      intro fs h hf
      have hb : b.streamCompletes = false := h b (List.mem_cons_self b rest)
      have hrest := fun b2 hb2 => h b2 (List.mem_cons_of_mem b hb2)
      have hfinal := try_mirror_final_unchanged freeSpace b check_length fs hb
      simp only [download_loop]
      cases hr : try_mirror freeSpace b check_length fs with
      | mk r fs1 =>
        rw [hr] at hfinal
        cases r with
        | ok u =>
          exact absurd (try_mirror_ok_stream freeSpace b check_length fs u (by rw [hr]))
            (by simp [hb])
        | error e =>
          by_cases hc : caughtByLoop e = true
          · dsimp only
            rw [if_pos hc]
            exact ih fs1 hrest (hfinal.trans hf)
          · dsimp only
            rw [if_neg hc]
            exact hfinal.trans hf
  · intro b fs hg ho hs
    unfold try_mirror
    simp [hg, ho, hs]

/-- Witness for the amended C7 theorem: a mirror list that never completes
a stream leaves the final path absent, and a concrete mid-stream failure
leaves the .part file present. -/
theorem c7_amended_final_path_atomic_witness :
    ((download_loop 100 true false [mirrorNoCL, mirrorMidStreamFail] fs0).2).finalExists = false ∧
    try_mirror 100 mirrorMidStreamFail false fs0 =
      (.error .requestsError, { partExists := true, finalExists := false }) := by
  constructor
  · exact (c7_amended_final_path_atomic 100 true false).1 [mirrorNoCL, mirrorMidStreamFail] fs0
      (by intro b hb; fin_cases hb <;> rfl) rfl
  · exact (c7_amended_final_path_atomic 100 true false).2 mirrorMidStreamFail fs0 rfl rfl rfl

/-! ## Integrity verification (download.py, Downloader.verify)

The file on disk is abstracted by the digests it hashes to: digestOf gives,
for each algorithm, the hex digest of the file at the verified path.  The
hashes argument is the manifest hash mapping (a Python dict of algorithm
name to expected digest). -/

/-- Python dict membership and lookup over the hash mapping. -/
def dictLookup (k : String) : List (String × String) → Option String
  | [] => none
  | (k2, v) :: rest => if k2 = k then some v else dictLookup k rest

/-- The three algorithms verify knows, strongest first in its chain. -/
inductive HashAlg where
  | sha256 : HashAlg
  | sha1 : HashAlg
  | md5 : HashAlg
  deriving DecidableEq

/-- The exceptions verify can raise: VerificationFailed carrying the
algorithm and the expected and actual digests (the source embeds them in
the message), or the ValueError for a mapping with no supported hash. -/
inductive VerifyError where
  | verificationFailed (alg : HashAlg) (expected actual : String) : VerifyError
  | valueError (msg : String) : VerifyError
  deriving DecidableEq

/-- The final comparison in verify: hash the file with the chosen
algorithm and compare with the expected digest. -/
def hashCheck (alg : HashAlg) (expected : String) (digestOf : HashAlg → String) :
    Except VerifyError Unit :=
  if digestOf alg ≠ expected then
    .error (.verificationFailed alg expected (digestOf alg))
  else .ok ()

/-- Embedding of Downloader.verify: pick the first algorithm of sha-256,
sha-1, md5 present in the hash mapping, raise ValueError when none is, and
otherwise compare digests. -/
def verify (hashes : List (String × String)) (digestOf : HashAlg → String) :
    Except VerifyError Unit :=
  match dictLookup "sha-256" hashes with
  | some expected => hashCheck .sha256 expected digestOf
  | none =>
    match dictLookup "sha-1" hashes with
    | some expected => hashCheck .sha1 expected digestOf
    | none =>
      match dictLookup "md5" hashes with
      | some expected => hashCheck .md5 expected digestOf
      | none => .error (.valueError "No supported hash found.")

/-- C8: verify picks the strongest available algorithm in the fixed order
sha-256, sha-1, md5; with a matching digest under the chosen algorithm it
returns without error; with a mismatching digest it raises
VerificationFailed carrying the algorithm and the expected and actual
digests; and with none of the three algorithms present it raises the
no-supported-hash ValueError. -/
theorem c8_verify_strongest_hash (hashes : List (String × String))
    (digestOf : HashAlg → String) :
    (∀ exp, dictLookup "sha-256" hashes = some exp →
      (digestOf .sha256 = exp → verify hashes digestOf = .ok ()) ∧
      (digestOf .sha256 ≠ exp →
        verify hashes digestOf = .error (.verificationFailed .sha256 exp (digestOf .sha256)))) ∧
    (∀ exp, dictLookup "sha-256" hashes = none → dictLookup "sha-1" hashes = some exp →
      (digestOf .sha1 = exp → verify hashes digestOf = .ok ()) ∧
      (digestOf .sha1 ≠ exp →
        verify hashes digestOf = .error (.verificationFailed .sha1 exp (digestOf .sha1)))) ∧
    (∀ exp, dictLookup "sha-256" hashes = none → dictLookup "sha-1" hashes = none →
      dictLookup "md5" hashes = some exp →
      (digestOf .md5 = exp → verify hashes digestOf = .ok ()) ∧
      (digestOf .md5 ≠ exp →
        verify hashes digestOf = .error (.verificationFailed .md5 exp (digestOf .md5)))) ∧
    (dictLookup "sha-256" hashes = none → dictLookup "sha-1" hashes = none →
      dictLookup "md5" hashes = none →
      verify hashes digestOf = .error (.valueError "No supported hash found.")) := by
  refine ⟨?_, ?_, ?_, ?_⟩
  · intro exp h256
    unfold verify hashCheck
    rw [h256]
    dsimp only
    constructor
    · intro hok; rw [if_neg (by simp [hok])]
    · intro hbad; rw [if_pos hbad]
  · intro exp h256 h1
    unfold verify hashCheck
    rw [h256, h1]
    dsimp only
    constructor
    · intro hok; rw [if_neg (by simp [hok])]
    · intro hbad; rw [if_pos hbad]
  · intro exp h256 h1 hmd5
    unfold verify hashCheck
    rw [h256, h1, hmd5]
    dsimp only
    constructor
    · intro hok; rw [if_neg (by simp [hok])]
    · intro hbad; rw [if_pos hbad]
  · intro h256 h1 hmd5
    unfold verify hashCheck
    rw [h256, h1, hmd5]

/-- Witness for C8: a mapping holding both a sha-256 and an md5 digest is
checked against sha-256 only, succeeding on the matching digest and
failing with the sha-256 VerificationFailed on a mismatching one, and the
empty mapping raises the ValueError. -/
theorem c8_verify_strongest_hash_witness :
    verify [("md5", "mmm"), ("sha-256", "abc")] (fun _ => "abc") = .ok () ∧
    verify [("md5", "mmm"), ("sha-256", "abc")] (fun _ => "zzz") =
      .error (.verificationFailed .sha256 "abc" "zzz") ∧
    verify [] (fun _ => "abc") = .error (.valueError "No supported hash found.") := by
  refine ⟨?_, ?_, ?_⟩
  · exact ((c8_verify_strongest_hash [("md5", "mmm"), ("sha-256", "abc")] (fun _ => "abc")).1
      "abc" (by decide)).1 rfl
  · exact ((c8_verify_strongest_hash [("md5", "mmm"), ("sha-256", "abc")] (fun _ => "zzz")).1
      "abc" (by decide)).2 (by decide)
  · exact (c8_verify_strongest_hash [] (fun _ => "abc")).2.2.2 rfl rfl rfl

/-! ## Batch download (download.py, Downloader.download_all)

What matters for the claims is which arguments download_all forwards to
download_archive for every entry; the call list is embedded explicitly. -/

/-- The argument tuple download_archive receives from download_all. -/
structure DownloadArgs where
  verify : Bool
  check_length : Bool
  quiet : Bool
  pbar_position : Option Nat
  deriving DecidableEq

/-- Embedding of Downloader.download_all as the list of per-entry
download_archive calls it makes: for a single entry it calls
download_archive(entries[0], verify) leaving check_length, quiet and
pbar_position at their defaults (true, false, None); otherwise it maps
download_archive(e, verify, check_length, quiet, posn) over the entries
zipped with positions range(1, len(entries) + 1). -/
def download_all_calls (entries : List ArchiveEntry) (verify check_length quiet : Bool) :
    List (ArchiveEntry × DownloadArgs) :=
  if entries.length = 1 then
    entries.map fun e =>
      (e, { verify := verify, check_length := true, quiet := false, pbar_position := none })
  else
    (entries.zip (List.range' 1 entries.length)).map fun p =>
      (p.1,
        { verify := verify, check_length := check_length, quiet := quiet,
          pbar_position := some p.2 })

/-- Indexing the zip of a list with the positions starting at s. -/
theorem zip_range_map_getElem {α β : Type} (f : α → Nat → β) :
    ∀ (l : List α) (s i : Nat),
      ((l.zip (List.range' s l.length)).map (fun p => f p.1 p.2))[i]? =
        l[i]?.map (fun e => f e (s + i))
  | [], _, _ => by simp
  | a :: l, s, 0 => by simp [List.range']
  | a :: l, s, i + 1 => by
    simp only [List.length_cons, List.range', List.zip_cons_cons, List.map_cons,
      List.getElem?_cons_succ]
    rw [zip_range_map_getElem f l (s + 1) i]
    have : s + 1 + i = s + (i + 1) := by omega
    rw [this]

/-- C10: a single-entry batch forwards only the verify flag to
download_archive, so check_length reverts to true, quiet reverts to false
and no progress-bar position is passed, whatever the caller supplied; a
batch of two or more entries forwards verify, check_length and quiet to
every per-entry call together with the 1-based position. -/
theorem c10_download_all_forwarding (verify check_length quiet : Bool) :
    (∀ e : ArchiveEntry, download_all_calls [e] verify check_length quiet =
      [(e, { verify := verify, check_length := true, quiet := false, pbar_position := none })]) ∧
    (∀ (entries : List ArchiveEntry) (i : Nat), 2 ≤ entries.length →
      (download_all_calls entries verify check_length quiet)[i]? =
        entries[i]?.map fun e =>
          (e,
            { verify := verify, check_length := check_length, quiet := quiet,
              pbar_position := some (i + 1) })) := by
  constructor
  · intro e
    simp [download_all_calls]
  · intro entries i hlen
    unfold download_all_calls
    rw [if_neg (by omega)]
    have h := zip_range_map_getElem
      (fun e posn =>
        ((e,
          { verify := verify, check_length := check_length, quiet := quiet,
            pbar_position := some posn }) : ArchiveEntry × DownloadArgs)) entries 1 i
    rw [show 1 + i = i + 1 from by omega] at h
    exact h

/-- A concrete catalog entry for witnesses. -/
def entryA : ArchiveEntry :=
  { id := "idA", title := "A", updated := 100, summary := "sA", language := {"eng"},
    name := "wikipedia", flavor := some "maxi", category := some "wikipedia",
    tags := {"t1"}, article_count := 10, media_count := 2, author_name := "auth",
    publisher_name := "pub", meta_link := "http://meta/A" }

/-- A second concrete catalog entry for witnesses. -/
def entryB : ArchiveEntry :=
  { id := "idB", title := "B", updated := 200, summary := "sB", language := {"fra"},
    name := "wiktionary", flavor := none, category := none,
    tags := {"t2"}, article_count := 20, media_count := 4, author_name := "auth",
    publisher_name := "pub", meta_link := "http://meta/B" }

/-- Witness for C10: the single-entry batch ignores check_length false and
quiet true, and in a two-entry batch the second call receives both flags
and position 2. -/
theorem c10_download_all_forwarding_witness :
    download_all_calls [entryA] true false true =
      [(entryA, { verify := true, check_length := true, quiet := false, pbar_position := none })] ∧
    (download_all_calls [entryA, entryB] true false true)[1]? =
      some (entryB,
        { verify := true, check_length := false, quiet := true,
          pbar_position := some 2 }) := by
  constructor
  · exact (c10_download_all_forwarding true false true).1 entryA
  · rw [(c10_download_all_forwarding true false true).2 [entryA, entryB] 1 (by decide)]
    rfl

/-! ## Sync planner (kzam/__init__.py, ArchiveManager.get_new)

The Python dict mapping archive references to optional archive details is
embedded as an association list; membership in the config subscription
list, the overwrite of the value on each already-downloaded archive, and
the final filter over the server entries follow the source loop by loop.
The catalog response is a parameter (the search over the union of
subscribed languages returns some list of entries). -/

/-- Association list lookup keyed by reference value equality, mirroring
the Python dict. -/
def alookup (m : List (ArchiveReference × Option ArchiveDetails)) (r : ArchiveReference) :
    Option (Option ArchiveDetails) :=
  match m with
  | [] => none
  | (k, v) :: rest => if k = r then some v else alookup rest r

/-- Association list update of the first entry with the given key. -/
def aupdate (m : List (ArchiveReference × Option ArchiveDetails)) (r : ArchiveReference)
    (v : Option ArchiveDetails) : List (ArchiveReference × Option ArchiveDetails) :=
  match m with
  | [] => []
  | (k, w) :: rest => if k = r then (k, v) :: rest else (k, w) :: aupdate rest r v

/-- Embedding of the first loop of get_new: walk the already-downloaded
archives, associate each one whose reference is a dict key with its
details (overwriting any earlier association), and flag the others for
deletion. -/
def syncFold : List ArchiveDetails →
    List (ArchiveReference × Option ArchiveDetails) × List ArchiveDetails →
    List (ArchiveReference × Option ArchiveDetails) × List ArchiveDetails
  | [], st => st
  | a :: rest, (m, dels) =>
    if (alookup m a.reference).isSome then
      syncFold rest (aupdate m a.reference (some a), dels)
    else
      syncFold rest (m, dels ++ [a])

/-- Embedding of the filter in the second loop of get_new: an entry from
the server is new when its reference is a dict key and either nothing is
installed for it or the installed version is strictly older. -/
def wantsEntry (m : List (ArchiveReference × Option ArchiveDetails)) (e : ArchiveEntry) :
    Bool :=
  match alookup m e.to_reference with
  | none => false
  | some none => true
  | some (some d) => decide (d.updated < e.updated)

/-- Embedding of ArchiveManager.get_new: from the configured
subscriptions, the already-downloaded archives and the catalog response,
produce the entries to download and the details to delete. -/
def get_new (subs : List ArchiveReference) (installed : List ArchiveDetails)
    (fromServer : List ArchiveEntry) : List ArchiveEntry × List ArchiveDetails :=
  let m0 := subs.map fun r => (r, (none : Option ArchiveDetails))
  let st := syncFold installed (m0, [])
  (fromServer.filter (wantsEntry st.1), st.2)

/-- Updating never changes which keys are present. -/
theorem alookup_aupdate_isSome (m : List (ArchiveReference × Option ArchiveDetails))
    (k r : ArchiveReference) (v : Option ArchiveDetails) :
    (alookup (aupdate m k v) r).isSome = (alookup m r).isSome := by
  induction m with
  | nil => rfl
  | cons kv rest ih =>
    obtain ⟨k2, w⟩ := kv
    unfold aupdate
    by_cases hk : k2 = k
    · rw [if_pos hk]
      unfold alookup
      by_cases hr : k2 = r <;> simp [hr]
    · rw [if_neg hk]
      unfold alookup
      by_cases hr : k2 = r <;> simp [hr, ih]

/-- The deletion list accumulated by the fold: everything already
collected, then the installed details whose reference is not a key. -/
theorem syncFold_deletions (installed : List ArchiveDetails) :
    ∀ (m : List (ArchiveReference × Option ArchiveDetails)) (dels : List ArchiveDetails),
      (syncFold installed (m, dels)).2 =
        dels ++ installed.filter (fun a => !(alookup m a.reference).isSome) := by
  induction installed with
  | nil => intro m dels; simp [syncFold]
  | cons a rest ih =>
    intro m dels
    unfold syncFold
    by_cases h : (alookup m a.reference).isSome
    · rw [if_pos h, ih]
      have hfilter : rest.filter (fun x => !(alookup (aupdate m a.reference (some a)) x.reference).isSome) =
          rest.filter (fun x => !(alookup m x.reference).isSome) := by
        apply List.filter_congr
        intro x _
        rw [alookup_aupdate_isSome]
      rw [hfilter, List.filter_cons_of_neg (by simp [h])]
    · rw [if_neg h, ih]
      rw [List.filter_cons_of_pos (by simp [h])]
      simp

/-- In the initial dict the keys are exactly the subscribed references. -/
theorem alookup_init_isSome (subs : List ArchiveReference) (r : ArchiveReference) :
    (alookup (subs.map fun s => (s, (none : Option ArchiveDetails))) r).isSome = decide (r ∈ subs) := by
  induction subs with
  | nil => simp [alookup]
  | cons s rest ih =>
    by_cases h : s = r
    · subst h
      simp [alookup]
    · have hrs : ¬r = s := fun hh => h hh.symm
      simp [alookup, h, hrs, ih]

/-- C3: for every subscription list, installed state and catalog response,
the details scheduled for deletion are exactly the installed rows whose
reference is not subscribed: every installed row with an unsubscribed
reference is in toDelete and no row with a subscribed reference is. -/
theorem c3_to_delete_iff_unsubscribed (subs : List ArchiveReference)
    (installed : List ArchiveDetails) (fromServer : List ArchiveEntry)
    (a : ArchiveDetails) :
    a ∈ (get_new subs installed fromServer).2 ↔ a ∈ installed ∧ a.reference ∉ subs := by
  unfold get_new
  rw [syncFold_deletions]
  simp only [List.nil_append, List.mem_filter, Bool.not_eq_eq_eq_not, Bool.not_true,
    alookup_init_isSome]
  simp

/-- The last element of the list with the given reference, if any: the
value the Python dict holds after the first loop overwrites it once per
matching installed archive. -/
def lastWith : List ArchiveDetails → ArchiveReference → Option ArchiveDetails
  | [], _ => none
  | a :: rest, r =>
    match lastWith rest r with
    | some d => some d
    | none => if a.reference = r then some a else none

/-- Looking up the key just updated returns the new value when the key is
present. -/
theorem alookup_aupdate_self (m : List (ArchiveReference × Option ArchiveDetails))
    (k : ArchiveReference) (v : Option ArchiveDetails)
    (h : (alookup m k).isSome = true) :
    alookup (aupdate m k v) k = some v := by
  induction m with
  | nil => simp [alookup] at h
  | cons kv rest ih =>
    obtain ⟨k2, w⟩ := kv
    unfold aupdate
    by_cases hk : k2 = k
    · rw [if_pos hk]
      simp [alookup, hk]
    · rw [if_neg hk]
      unfold alookup
      rw [if_neg hk]
      unfold alookup at h
      rw [if_neg hk] at h
      exact ih h

/-- Looking up a different key after an update is unchanged. -/
theorem alookup_aupdate_ne (m : List (ArchiveReference × Option ArchiveDetails))
    (k r : ArchiveReference) (v : Option ArchiveDetails) (h : r ≠ k) :
    alookup (aupdate m k v) r = alookup m r := by
  induction m with
  | nil => rfl
  | cons kv rest ih =>
    obtain ⟨k2, w⟩ := kv
    unfold aupdate
    by_cases hk : k2 = k
    · rw [if_pos hk]
      unfold alookup
      rw [if_neg (by rw [hk]; exact fun hh => h hh.symm), if_neg (by rw [hk]; exact fun hh => h hh.symm)]
    · rw [if_neg hk]
      unfold alookup
      by_cases hr : k2 = r
      · rw [if_pos hr, if_pos hr]
      · rw [if_neg hr, if_neg hr, ih]

/-- The fold preserves which keys are present in the dict. -/
theorem syncFold_isSome (installed : List ArchiveDetails) :
    ∀ (m : List (ArchiveReference × Option ArchiveDetails)) (dels : List ArchiveDetails)
      (r : ArchiveReference),
      (alookup (syncFold installed (m, dels)).1 r).isSome = (alookup m r).isSome := by
  induction installed with
  | nil => intro m dels r; rfl
  | cons a rest ih =>
    intro m dels r
    unfold syncFold
    by_cases h : (alookup m a.reference).isSome
    · rw [if_pos h, ih, alookup_aupdate_isSome]
    · rw [if_neg h, ih]

/-- Unfolding equation for lastWith on a cons cell. -/
theorem lastWith_cons (a : ArchiveDetails) (rest : List ArchiveDetails)
    (r : ArchiveReference) :
    lastWith (a :: rest) r =
      match lastWith rest r with
      | some d => some d
      | none => if a.reference = r then some a else none := rfl

/-- A list with no element of the given reference has no last element of
that reference. -/
theorem lastWith_eq_none (l : List ArchiveDetails) (r : ArchiveReference)
    (h : ∀ a ∈ l, a.reference ≠ r) : lastWith l r = none := by
  induction l with
  | nil => rfl
  | cons a rest ih =>
    unfold lastWith
    rw [ih (fun x hx => h x (List.mem_cons_of_mem a hx))]
    rw [if_neg (h a (List.mem_cons_self a rest))]

/-- When the installed rows of the given reference are exactly one row,
that row is the last one with the reference. -/
theorem lastWith_of_filter_single (l : List ArchiveDetails) (r : ArchiveReference)
    (d : ArchiveDetails)
    (h : l.filter (fun a => decide (a.reference = r)) = [d]) : lastWith l r = some d := by
  induction l with
  | nil => simp at h
  | cons a rest ih =>
    by_cases ha : a.reference = r
    · rw [List.filter_cons_of_pos (by simp [ha])] at h
      have hd : a = d := (List.cons_eq_cons.mp h).1
      have hrest : rest.filter (fun a => decide (a.reference = r)) = [] :=
        (List.cons_eq_cons.mp h).2
      have hnone : lastWith rest r = none := by
        apply lastWith_eq_none
        intro x hx
        have := List.filter_eq_nil_iff.mp hrest x hx
        simpa using this
      unfold lastWith
      rw [hnone, if_pos ha, hd]
    · rw [List.filter_cons_of_neg (by simp [ha])] at h
      unfold lastWith
      rw [ih h]

/-- After the first loop, a subscribed reference maps to the last
installed row with that reference, or keeps its initial value when none
is installed. -/
theorem syncFold_value (installed : List ArchiveDetails) :
    ∀ (m : List (ArchiveReference × Option ArchiveDetails)) (dels : List ArchiveDetails)
      (r : ArchiveReference), (alookup m r).isSome = true →
      alookup (syncFold installed (m, dels)).1 r =
        match lastWith installed r with
        | some d => some (some d)
        | none => alookup m r := by
  induction installed with
  | nil => intro m dels r _; rfl
  | cons a rest ih =>
    intro m dels r hr
    unfold syncFold
    by_cases h : (alookup m a.reference).isSome
    · rw [if_pos h]
      have hr2 : (alookup (aupdate m a.reference (some a)) r).isSome = true := by
        rw [alookup_aupdate_isSome]; exact hr
      rw [ih _ dels r hr2, lastWith_cons]
      cases hlr : lastWith rest r with
      | some d => rfl
      | none =>
        by_cases har : a.reference = r
        · rw [if_pos har]
          dsimp only
          rw [har] at h ⊢
          exact alookup_aupdate_self m r (some a) h
        · rw [if_neg har]
          dsimp only
          exact alookup_aupdate_ne m a.reference r (some a) (fun hh => har hh.symm)
    · rw [if_neg h]
      have har : a.reference ≠ r := by
        intro hh
        rw [hh] at h
        exact h hr
      rw [ih _ _ r hr, lastWith_cons]
      cases hlr : lastWith rest r with
      | some d => rfl
      | none => rw [if_neg har]

/-- The value a subscribed reference has in the initial dict. -/
theorem alookup_init (subs : List ArchiveReference) (r : ArchiveReference) :
    alookup (subs.map fun s => (s, (none : Option ArchiveDetails))) r =
      if r ∈ subs then some none else none := by
  induction subs with
  | nil => simp [alookup]
  | cons s rest ih =>
    by_cases h : s = r
    · subst h
      simp [alookup]
    · have hrs : ¬r = s := fun hh => h hh.symm
      simp [alookup, h, hrs, ih]

/-- C4: an entry whose derived reference is not subscribed is never put in
toDownload; an entry whose derived reference is subscribed with nothing
installed for it is put in toDownload; and when exactly one version with
updated timestamp U is installed for the subscribed reference, the entry
is put in toDownload exactly when its updated timestamp is strictly
greater than U. -/
theorem c4_to_download_freshness (subs : List ArchiveReference)
    (installed : List ArchiveDetails) (fromServer : List ArchiveEntry) (e : ArchiveEntry) :
    (e.to_reference ∉ subs → e ∉ (get_new subs installed fromServer).1) ∧
    (e ∈ fromServer → e.to_reference ∈ subs →
      (∀ a ∈ installed, a.reference ≠ e.to_reference) →
      e ∈ (get_new subs installed fromServer).1) ∧
    (∀ d : ArchiveDetails, e ∈ fromServer → e.to_reference ∈ subs →
      installed.filter (fun a => decide (a.reference = e.to_reference)) = [d] →
      (e ∈ (get_new subs installed fromServer).1 ↔ d.updated < e.updated)) := by
  refine ⟨?_, ?_, ?_⟩
  · intro hns hmem
    unfold get_new at hmem
    have hw := (List.mem_filter.mp hmem).2
    unfold wantsEntry at hw
    have hnone : alookup (syncFold installed
        (subs.map fun r => (r, (none : Option ArchiveDetails)), [])).1 e.to_reference = none := by
      have := syncFold_isSome installed (subs.map fun r => (r, (none : Option ArchiveDetails)))
        [] e.to_reference
      rw [alookup_init_isSome, decide_eq_false hns] at this
      exact Option.not_isSome_iff_eq_none.mp (by simp [this])
    rw [hnone] at hw
    simp at hw
  · intro hmem hsub hnone
    unfold get_new
    refine List.mem_filter.mpr ⟨hmem, ?_⟩
    unfold wantsEntry
    have hv := syncFold_value installed (subs.map fun r => (r, (none : Option ArchiveDetails)))
      [] e.to_reference (by rw [alookup_init_isSome]; simp [hsub])
    rw [lastWith_eq_none installed e.to_reference hnone] at hv
    rw [alookup_init, if_pos hsub] at hv
    rw [hv]
  · intro d hmem hsub hfilter
    unfold get_new
    have hv := syncFold_value installed (subs.map fun r => (r, (none : Option ArchiveDetails)))
      [] e.to_reference (by rw [alookup_init_isSome]; simp [hsub])
    rw [lastWith_of_filter_single installed e.to_reference d hfilter] at hv
    constructor
    · intro hin
      have hw := (List.mem_filter.mp hin).2
      unfold wantsEntry at hw
      rw [hv] at hw
      simpa using hw
    · intro hlt
      refine List.mem_filter.mpr ⟨hmem, ?_⟩
      unfold wantsEntry
      rw [hv]
      simpa using hlt

/-- Witness for C4 at concrete inputs: an unsubscribed entry is not
downloaded, a subscribed entry with nothing installed is downloaded, and a
subscribed entry with exactly one installed version is downloaded exactly
when strictly newer (here it is not newer, both carrying timestamp 100). -/
theorem c4_to_download_freshness_witness :
    entryA ∉ (get_new [] [] [entryA]).1 ∧
    entryA ∈ (get_new [wikiMaxiRef] [] [entryA]).1 ∧
    (entryA ∈ (get_new [wikiMaxiRef] [wikiMaxiJan] [entryA]).1 ↔
      wikiMaxiJan.updated < entryA.updated) := by
  refine ⟨?_, ?_, ?_⟩
  · exact (c4_to_download_freshness [] [] [entryA] entryA).1 (by decide)
  · exact (c4_to_download_freshness [wikiMaxiRef] [] [entryA] entryA).2.1
      (by decide) (by decide) (by decide)
  · exact (c4_to_download_freshness [wikiMaxiRef] [wikiMaxiJan] [entryA] entryA).2.2
      wikiMaxiJan (by decide) (by decide) (by decide)

/-! ## Config round trip (datamodel.py to_config and config.py from_toml_file)

Python str.join and str.split with a one-character separator are embedded
at character level (a Lean String is its list of characters).  The TOML
loader is external library code; its behaviour on the exact document shape
to_config emits (a [[archive]] header line followed by key = "value"
lines) is modelled by parse_config below, which splits the text into
lines, checks the header, parses each key-value line, and builds the
ArchiveReference the way Config.from_toml_file does: the name value, the
language value split on commas into a set, and the flavour value when the
key is present (None otherwise). -/

/-- Split of a character list on a separator character, matching Python
str.split with a one-character separator. -/
def splitOnChar (c : Char) : List Char → List (List Char)
  | [] => [[]]
  | x :: xs =>
    match splitOnChar c xs with
    | [] => [[]]
    | y :: ys => if x = c then [] :: y :: ys else (x :: y) :: ys

/-- Join of character lists with a separator character, matching Python
str.join with a one-character separator. -/
def joinParts (c : Char) : List (List Char) → List Char
  | [] => []
  | [p] => p
  | p :: q :: rest => p ++ c :: joinParts c (q :: rest)

/-- Unfolding equation for splitOnChar on a cons cell. -/
theorem splitOnChar_cons (c x : Char) (xs : List Char) :
    splitOnChar c (x :: xs) =
      match splitOnChar c xs with
      | [] => [[]]
      | y :: ys => if x = c then [] :: y :: ys else (x :: y) :: ys := rfl

/-- Splitting never yields an empty list of parts. -/
theorem splitOnChar_ne_nil (c : Char) (l : List Char) : splitOnChar c l ≠ [] := by
  cases l with
  | nil => simp [splitOnChar]
  | cons x xs =>
    unfold splitOnChar
    cases splitOnChar c xs with
    | nil => simp
    | cons y ys => by_cases h : x = c <;> simp [h]

/-- Splitting a separator-free prefix followed by anything prepends that
prefix to the first part of the split of the remainder. -/
theorem splitOnChar_append (c : Char) (p l : List Char) (hp : ∀ ch ∈ p, ch ≠ c) :
    splitOnChar c (p ++ l) =
      (p ++ (splitOnChar c l).headI) :: (splitOnChar c l).tail := by
  induction p with
  | nil =>
    simp only [List.nil_append]
    cases hs : splitOnChar c l with
    | nil => exact absurd hs (splitOnChar_ne_nil c l)
    | cons y ys => simp
  | cons x p ih =>
    have hx : x ≠ c := hp x (List.mem_cons_self x p)
    have hp2 : ∀ ch ∈ p, ch ≠ c := fun ch hch => hp ch (List.mem_cons_of_mem x hch)
    simp only [List.cons_append]
    rw [splitOnChar_cons, ih hp2]
    dsimp only
    rw [if_neg hx]

/-- A separator-free character list splits into itself alone. -/
theorem splitOnChar_of_no_sep (c : Char) (p : List Char) (hp : ∀ ch ∈ p, ch ≠ c) :
    splitOnChar c p = [p] := by
  have h := splitOnChar_append c p [] hp
  simpa [splitOnChar] using h

/-- Splitting inverts joining when no part contains the separator. -/
theorem splitOnChar_joinParts (c : Char) :
    ∀ (parts : List (List Char)), parts ≠ [] →
      (∀ p ∈ parts, ∀ ch ∈ p, ch ≠ c) →
      splitOnChar c (joinParts c parts) = parts
  | [], h, _ => absurd rfl h
  | [p], _, hp => by
    unfold joinParts
    exact splitOnChar_of_no_sep c p (hp p (List.mem_singleton.mpr rfl))
  | p :: q :: rest, _, hp => by
    unfold joinParts
    rw [splitOnChar_append c p _ (hp p (List.mem_cons_self p _))]
    have hrec := splitOnChar_joinParts c (q :: rest) (by simp)
      (fun x hx => hp x (List.mem_cons_of_mem p hx))
    have hcons : splitOnChar c (c :: joinParts c (q :: rest)) =
        [] :: splitOnChar c (joinParts c (q :: rest)) := by
      rw [splitOnChar_cons, hrec]
      dsimp only
      rw [if_pos rfl]
    rw [hcons, hrec]
    simp

/-- Every character of a join is the separator or comes from a part. -/
theorem mem_joinParts (c : Char) :
    ∀ (parts : List (List Char)) (ch : Char), ch ∈ joinParts c parts →
      ch = c ∨ ∃ p ∈ parts, ch ∈ p
  | [], ch, h => by simp [joinParts] at h
  | [p], ch, h => by
    right
    exact ⟨p, List.mem_singleton.mpr rfl, by simpa [joinParts] using h⟩
  | p :: q :: rest, ch, h => by
    unfold joinParts at h
    rcases List.mem_append.mp h with hin | hin
    · exact Or.inr ⟨p, List.mem_cons_self p _, hin⟩
    · rcases List.mem_cons.mp hin with hc | hin2
      · exact Or.inl hc
      · rcases mem_joinParts c (q :: rest) ch hin2 with hc | ⟨p2, hp2, hchp⟩
        · exact Or.inl hc
        · exact Or.inr ⟨p2, List.mem_cons_of_mem p hp2, hchp⟩

/-- String append concatenates the character lists. -/
theorem data_append (a b : String) : (a ++ b).data = a.data ++ b.data := by
  cases a
  cases b
  rfl

/-- Rebuilding a string from its characters is the identity. -/
theorem mk_data (s : String) : String.mk s.data = s := rfl

/-- Embedding of Python str.join with a one-character separator. -/
def pyJoin (sep : String) : List String → String
  | [] => ""
  | [l] => l
  | l :: l2 :: rest => l ++ sep ++ pyJoin sep (l2 :: rest)

/-- Embedding of Python str.split with a one-character separator. -/
def pySplit (c : Char) (s : String) : List String :=
  (splitOnChar c s.data).map String.mk

/-- The characters of a join with a one-character separator. -/
theorem pyJoin_data (sep : String) (c : Char) (hsep : sep.data = [c]) :
    ∀ (lines : List String),
      (pyJoin sep lines).data = joinParts c (lines.map String.data)
  | [] => rfl
  | [l] => rfl
  | l :: l2 :: rest => by
    unfold pyJoin
    rw [data_append, data_append, pyJoin_data sep c hsep (l2 :: rest), hsep]
    simp [joinParts]

/-- Split inverts join at string level when no line holds the separator. -/
theorem pySplit_pyJoin (sep : String) (c : Char) (hsep : sep.data = [c])
    (lines : List String) (hne : lines ≠ [])
    (h : ∀ l ∈ lines, ∀ ch ∈ l.data, ch ≠ c) :
    pySplit c (pyJoin sep lines) = lines := by
  unfold pySplit
  rw [pyJoin_data sep c hsep]
  rw [splitOnChar_joinParts c (lines.map String.data) (by simpa using hne)
    (by intro p hp ch hch
        obtain ⟨l, hl, rfl⟩ := List.mem_map.mp hp
        exact h l hl ch hch)]
  rw [List.map_map]
  have hid : (String.mk ∘ String.data) = id := funext fun s => rfl
  rw [hid, List.map_id]

/-- A key-value line as to_config writes it: key, space, equals, space,
then the value in double quotes. -/
def mkKVLine (k v : String) : String := k ++ " = \"" ++ v ++ "\""

/-- Parse of one key = "value" line, modelling what the TOML loader
yields for the lines to_config emits: the key runs up to the first space,
an equals sign in spaces follows, and the value is what stands between
the opening quote and the final character. -/
def parseKV (line : String) : Option (String × String) :=
  let l := line.data
  let k := l.takeWhile fun ch => decide (ch ≠ ' ')
  let rest := l.drop k.length
  if rest.take 4 = [' ', '=', ' ', '"'] ∧ rest.getLast? = some '"' ∧ 5 ≤ rest.length then
    some (String.mk k, String.mk ((rest.drop 4).dropLast))
  else none

/-- Taking the space-free prefix of a space-free list followed by a space
returns the list. -/
theorem takeWhile_no_space (k tail : List Char) (hk : ∀ ch ∈ k, ch ≠ ' ') :
    ((k ++ ' ' :: tail).takeWhile fun ch => decide (ch ≠ ' ')) = k := by
  induction k with
  | nil => simp
  | cons x kx ih =>
    have hx : x ≠ ' ' := hk x (List.mem_cons_self _ _)
    have hk2 : ∀ ch ∈ kx, ch ≠ ' ' := fun ch hch => hk ch (List.mem_cons_of_mem x hch)
    simp only [List.cons_append, List.takeWhile_cons]
    rw [decide_eq_true hx, ih hk2]
    simp

/-- Parsing inverts building a key-value line for a space-free key. -/
theorem parseKV_mkKVLine (k v : String) (hk : ∀ ch ∈ k.data, ch ≠ ' ') :
    parseKV (mkKVLine k v) = some (k, v) := by
  have hdata : (mkKVLine k v).data =
      k.data ++ ' ' :: '=' :: ' ' :: '"' :: (v.data ++ ['"']) := by
    unfold mkKVLine
    rw [data_append, data_append, data_append]
    simp
  unfold parseKV
  rw [hdata]
  dsimp only
  rw [takeWhile_no_space k.data ('=' :: ' ' :: '"' :: (v.data ++ ['"'])) hk]
  rw [List.drop_left]
  have htake : (' ' :: '=' :: ' ' :: '"' :: (v.data ++ ['"'])).take 4 =
      [' ', '=', ' ', '"'] := rfl
  have hlast : (' ' :: '=' :: ' ' :: '"' :: (v.data ++ ['"'])).getLast? = some '"' := by
    have h1 : (' ' :: '=' :: ' ' :: '"' :: (v.data ++ ['"'])) =
        (' ' :: '=' :: ' ' :: '"' :: v.data) ++ ['"'] := by simp
    rw [h1, List.getLast?_concat]
  have hlen : 5 ≤ (' ' :: '=' :: ' ' :: '"' :: (v.data ++ ['"'])).length := by
    simp
  rw [if_pos ⟨htake, hlast, hlen⟩]
  have hdrop : (' ' :: '=' :: ' ' :: '"' :: (v.data ++ ['"'])).drop 4 = v.data ++ ['"'] := rfl
  rw [hdrop, List.dropLast_concat, mk_data, mk_data]

/-- Lookup of a key among the parsed key-value pairs, as indexing the
dict the TOML loader builds. -/
def lookupKV (k : String) : List (String × String) → Option String
  | [] => none
  | (k2, v) :: rest => if k2 = k then some v else lookupKV k rest

/-- Lookup walks past a pair with a different key. -/
theorem lookupKV_cons_ne (k k2 v : String) (rest : List (String × String))
    (h : k2 ≠ k) : lookupKV k ((k2, v) :: rest) = lookupKV k rest := by
  conv_lhs => rw [lookupKV]
  rw [if_neg h]

/-- Lookup finds the pair with the matching key. -/
theorem lookupKV_cons_eq (k v : String) (rest : List (String × String)) :
    lookupKV k ((k, v) :: rest) = some v := by
  unfold lookupKV
  rw [if_pos rfl]

/-- Parse of every key-value line, failing when one line is malformed:
the per-line behaviour of the TOML loader on the emitted document. -/
def parseKVList : List String → Option (List (String × String))
  | [] => some []
  | l :: rest =>
    match parseKV l, parseKVList rest with
    | some kv, some kvs => some (kv :: kvs)
    | _, _ => none

/-- Embedding of ArchiveReference.to_config.  The langOrder parameter is
the iteration order in which Python enumerates the frozenset of language
codes; the flavour line is appended only for a truthy (non-None,
non-empty) flavour. -/
def to_config (r : ArchiveReference) (langOrder : List String) : String :=
  pyJoin "\n"
    (["[[archive]]",
      mkKVLine "name" r.name,
      mkKVLine "language" (pyJoin "," langOrder)] ++
     (match r.flavour with
      | some f => if f = "" then [] else [mkKVLine "flavour" f]
      | none => []))

/-- Model of Config.from_toml_file composed with the TOML loader on a
one-archive document: split into lines, check the [[archive]] header,
parse the key = "value" lines, and build the reference from the name
value, the language value split on commas into a set, and the optional
flavour value. -/
def parse_config (text : String) : Option ArchiveReference :=
  match pySplit '\n' text with
  | [] => none
  | header :: kvLines =>
    if header = "[[archive]]" then
      match parseKVList kvLines with
      | none => none
      | some kvs =>
        match lookupKV "name" kvs, lookupKV "language" kvs with
        | some n, some langStr =>
          some { name := n, language := ((pySplit ',' langStr).toFinset : Finset String),
                 flavour := lookupKV "flavour" kvs }
        | _, _ => none
    else none

/-- The characters of a key-value line. -/
theorem mkKVLine_data (k v : String) :
    (mkKVLine k v).data = k.data ++ ' ' :: '=' :: ' ' :: '"' :: (v.data ++ ['"']) := by
  unfold mkKVLine
  rw [data_append, data_append, data_append]
  simp

/-- A key-value line over newline-free key and value is newline-free. -/
theorem mkKVLine_no_newline (k v : String)
    (hkn : ∀ ch ∈ k.data, ch ≠ '\n') (hvn : ∀ ch ∈ v.data, ch ≠ '\n') :
    ∀ ch ∈ (mkKVLine k v).data, ch ≠ '\n' := by
  intro ch hch
  rw [mkKVLine_data] at hch
  rcases List.mem_append.mp hch with h | h
  · exact hkn ch h
  · simp only [List.mem_cons] at h
    rcases h with rfl | rfl | rfl | rfl | h
    · decide
    · decide
    · decide
    · decide
    · rcases List.mem_append.mp h with h2 | h2
      · exact hvn ch h2
      · simp only [List.mem_singleton] at h2
        subst h2
        decide

/-- C9: serializing a reference with to_config and re-parsing the text
yields an equal reference, for any enumeration order of the language set,
provided the language set is non-empty, language codes hold no comma and
no newline, the name holds no newline, and the flavour is not the empty
string and holds no newline. -/
theorem c9_to_config_roundtrip (r : ArchiveReference) (langOrder : List String)
    (horder : langOrder.toFinset = r.language)
    (hne : langOrder ≠ [])
    (hcodes : ∀ code ∈ langOrder, ∀ ch ∈ code.data, ch ≠ ',' ∧ ch ≠ '\n')
    (hname : ∀ ch ∈ r.name.data, ch ≠ '\n')
    (hfne : r.flavour ≠ some "")
    (hflavn : ∀ ch ∈ (r.flavour.getD "").data, ch ≠ '\n') :
    parse_config (to_config r langOrder) = some r := by
  have hlv : ∀ ch ∈ (pyJoin "," langOrder).data, ch ≠ '\n' := by
    intro ch hch
    rw [pyJoin_data "," ',' rfl] at hch
    rcases mem_joinParts ',' _ ch hch with rfl | ⟨p, hp, hchp⟩
    · decide
    · obtain ⟨l, hl, rfl⟩ := List.mem_map.mp hp
      exact (hcodes l hl ch hchp).2
  have hnameLine := mkKVLine_no_newline "name" r.name (by decide) hname
  have hlangLine := mkKVLine_no_newline "language" (pyJoin "," langOrder) (by decide) hlv
  have pn : parseKV (mkKVLine "name" r.name) = some ("name", r.name) :=
    parseKV_mkKVLine _ _ (by decide)
  have pl : parseKV (mkKVLine "language" (pyJoin "," langOrder)) =
      some ("language", pyJoin "," langOrder) :=
    parseKV_mkKVLine _ _ (by decide)
  have hlangSet : (pySplit ',' (pyJoin "," langOrder)).toFinset = r.language := by
    rw [pySplit_pyJoin "," ',' rfl langOrder hne (fun l hl ch hch => (hcodes l hl ch hch).1)]
    exact horder
  cases hfl : r.flavour with
  | none =>
    have h1 : pySplit '\n' (to_config r langOrder) =
        ["[[archive]]", mkKVLine "name" r.name,
         mkKVLine "language" (pyJoin "," langOrder)] := by
      unfold to_config
      rw [hfl]
      dsimp only
      rw [List.append_nil]
      refine pySplit_pyJoin "\n" '\n' rfl _ (by simp) ?_
      intro l hl
      simp only [List.mem_cons, List.not_mem_nil, or_false] at hl
      rcases hl with rfl | rfl | rfl
      · intro ch hch
        fin_cases hch <;> decide
      · exact hnameLine
      · exact hlangLine
    unfold parse_config
    rw [h1]
    dsimp only
    rw [if_pos rfl]
    have hmapM : parseKVList [mkKVLine "name" r.name,
        mkKVLine "language" (pyJoin "," langOrder)] =
        some [("name", r.name), ("language", pyJoin "," langOrder)] := by
      simp [parseKVList, pn, pl]
    rw [hmapM]
    dsimp only
    have hlook1 : lookupKV "name"
        [("name", r.name), ("language", pyJoin "," langOrder)] = some r.name :=
      lookupKV_cons_eq _ _ _
    have hlook2 : lookupKV "language"
        [("name", r.name), ("language", pyJoin "," langOrder)] =
        some (pyJoin "," langOrder) := by
      rw [lookupKV_cons_ne _ _ _ _ (by decide), lookupKV_cons_eq]
    have hlook3 : lookupKV "flavour"
        [("name", r.name), ("language", pyJoin "," langOrder)] = none := by
      rw [lookupKV_cons_ne _ _ _ _ (by decide), lookupKV_cons_ne _ _ _ _ (by decide)]
      rfl
    rw [hlook1, hlook2]
    dsimp only
    rw [hlook3, hlangSet, ← hfl]
  | some f =>
    have hfne2 : ¬f = "" := fun h => hfne (by rw [hfl, h])
    have hflavn2 : ∀ ch ∈ f.data, ch ≠ '\n' := by
      rw [hfl] at hflavn
      simpa using hflavn
    have hflavLine := mkKVLine_no_newline "flavour" f (by decide) hflavn2
    have pf : parseKV (mkKVLine "flavour" f) = some ("flavour", f) :=
      parseKV_mkKVLine _ _ (by decide)
    have h1 : pySplit '\n' (to_config r langOrder) =
        ["[[archive]]", mkKVLine "name" r.name,
         mkKVLine "language" (pyJoin "," langOrder), mkKVLine "flavour" f] := by
      unfold to_config
      rw [hfl]
      dsimp only
      rw [if_neg hfne2]
      refine pySplit_pyJoin "\n" '\n' rfl _ (by simp) ?_
      intro l hl
      simp only [List.cons_append, List.nil_append, List.mem_cons, List.not_mem_nil,
        or_false] at hl
      rcases hl with rfl | rfl | rfl | rfl
      · intro ch hch
        fin_cases hch <;> decide
      · exact hnameLine
      · exact hlangLine
      · exact hflavLine
    unfold parse_config
    rw [h1]
    dsimp only
    rw [if_pos rfl]
    have hmapM : parseKVList [mkKVLine "name" r.name,
        mkKVLine "language" (pyJoin "," langOrder), mkKVLine "flavour" f] =
        some [("name", r.name), ("language", pyJoin "," langOrder), ("flavour", f)] := by
      simp [parseKVList, pn, pl, pf]
    rw [hmapM]
    dsimp only
    have hlook1 : lookupKV "name"
        [("name", r.name), ("language", pyJoin "," langOrder), ("flavour", f)] =
        some r.name :=
      lookupKV_cons_eq _ _ _
    have hlook2 : lookupKV "language"
        [("name", r.name), ("language", pyJoin "," langOrder), ("flavour", f)] =
        some (pyJoin "," langOrder) := by
      rw [lookupKV_cons_ne _ _ _ _ (by decide), lookupKV_cons_eq]
    have hlook3 : lookupKV "flavour"
        [("name", r.name), ("language", pyJoin "," langOrder), ("flavour", f)] =
        some f := by
      rw [lookupKV_cons_ne _ _ _ _ (by decide), lookupKV_cons_ne _ _ _ _ (by decide),
        lookupKV_cons_eq]
    rw [hlook1, hlook2]
    dsimp only
    rw [hlook3, hlangSet, ← hfl]

/-- The reference of the round-trip example in the spec. -/
def wikiFraMaxiRef : ArchiveReference :=
  { name := "wikipedia", language := {"eng", "fra"}, flavour := some "maxi" }

/-- Witness for C9: the reference named wikipedia with languages eng and
fra and flavour maxi survives the round trip through the config text. -/
theorem c9_to_config_roundtrip_witness :
    parse_config (to_config wikiFraMaxiRef ["eng", "fra"]) = some wikiFraMaxiRef :=
  c9_to_config_roundtrip wikiFraMaxiRef ["eng", "fra"] (by decide) (by decide)
    (by decide) (by decide) (by decide) (by decide)

end Kzam
